import Mathlib

/-
Verification of the email-campaign-system server (src/server.js) against its
natural-language specification.  The relevant parts of the JavaScript source
are shallowly embedded as executable Lean definitions: pure string transforms
(personalizeContent, processLinksForTracking) become functions on `List Char`,
and the stateful campaign runner and tracking endpoints become explicit
state-passing functions over record types mirroring the SQLite tables.
-/

namespace EC

/-- Brace characters, used by the `\x7b\x7bkey\x7d\x7d` placeholder syntax. -/
def lbrace : Char := Char.ofNat 123

/-- Closing brace character. -/
def rbrace : Char := Char.ofNat 125

/-- Single-quote character (ASCII 39). -/
def squote : Char := Char.ofNat 39

/-- JavaScript-style values as they appear in a parsed JSON custom-field bag
(`JSON.parse(contact.custom_fields)`): strings, numbers, or null. -/
inductive JVal : Type
  | str (s : String)
  | num (n : Int)
  | jnull
deriving DecidableEq

/-- JavaScript truthiness of a `JVal`: the empty string, 0 and null are falsy. -/
def JVal.truthy : JVal → Bool
  | .str s => !(s = "")
  | .num n => !(n = 0)
  | .jnull => false

/-- String coercion applied when a `JVal` is interpolated into a string. -/
def JVal.render : JVal → String
  | .str s => s
  | .num n => toString n
  | .jnull => "null"

/-- JavaScript `v || d` on a nullable string column: null and `""` fall back. -/
def jsOr (v : Option String) (d : String) : String :=
  match v with
  | some s => if s = "" then d else s
  | none => d

/-- Test `leadsWith pat s`: true when `pat` occurs at the very start of `s`. -/
def leadsWith : List Char → List Char → Bool
  | [], _ => true
  | _ :: _, [] => false
  | p :: ps, c :: cs => p = c && leadsWith ps cs

/-- Fuel-indexed scanner for global literal replacement.  Each step consumes
at least one input character, so any fuel of at least the input length gives
the untruncated scan. -/
def replaceAllF (pat rep : List Char) : Nat → List Char → List Char
  | _, [] => []
  | 0, s => s
  | fuel + 1, c :: rest =>
    if pat ≠ [] ∧ leadsWith pat (c :: rest) = true then
      rep ++ replaceAllF pat rep fuel ((c :: rest).drop pat.length)
    else
      c :: replaceAllF pat rep fuel rest

/-- Global literal replacement, the semantics of JavaScript
`s.replace(/pat/g, rep)` for a literal pattern and a replacement containing
no dollar patterns (all replacement values in scope are plain field values):
scan left to right, replace each non-overlapping occurrence, continue after
the match. -/
def replaceAll (pat rep : List Char) (s : List Char) : List Char :=
  replaceAllF pat rep s.length s

theorem replaceAllF_irrel (pat rep : List Char) : ∀ (f1 : Nat), ∀ (f2 : Nat) (s : List Char),
    s.length ≤ f1 → s.length ≤ f2 → replaceAllF pat rep f1 s = replaceAllF pat rep f2 s := by
  intro f1
  induction f1 with
  | zero =>
    intro f2 s h1 _
    have hnil : s = [] := List.eq_nil_of_length_eq_zero (Nat.le_zero.mp h1)
    subst hnil
    cases f2 <;> rfl
  | succ f1 ih =>
    intro f2 s h1 h2
    cases s with
    | nil => cases f2 <;> rfl
    | cons c rest =>
      cases f2 with
      | zero => simp [List.length_cons] at h2
      | succ f2 =>
        simp only [replaceAllF]
        simp only [List.length_cons] at h1 h2
        split
        · rename_i hcond
          have hplen : 1 ≤ pat.length := by
            cases hp : pat with
            | nil => exact absurd hp hcond.1
            | cons a b => simp [List.length_cons]
          have hd : ((c :: rest).drop pat.length).length ≤ rest.length := by
            simp only [List.length_drop, List.length_cons]
            omega
          rw [ih f2 _ (by omega) (by omega)]
        · rw [ih f2 rest (by omega) (by omega)]

/-- The wrapper satisfies the one-step recursion of the scan. -/
theorem replaceAll_eq (pat rep : List Char) (s : List Char) :
    replaceAll pat rep s =
      match s with
      | [] => []
      | c :: rest =>
        if pat ≠ [] ∧ leadsWith pat (c :: rest) = true then
          rep ++ replaceAll pat rep ((c :: rest).drop pat.length)
        else
          c :: replaceAll pat rep rest := by
  cases s with
  | nil => rfl
  | cons c rest =>
    show replaceAllF pat rep (rest.length + 1) (c :: rest) = _
    simp only [replaceAllF]
    split
    · rename_i hcond
      have hplen : 1 ≤ pat.length := by
        cases hp : pat with
        | nil => exact absurd hp hcond.1
        | cons a b => simp [List.length_cons]
      rw [replaceAllF_irrel pat rep rest.length ((c :: rest).drop pat.length).length _
            (by simp only [List.length_drop, List.length_cons]; omega) (le_refl _)]
      rfl
    · rw [replaceAllF_irrel pat rep rest.length rest.length rest (le_refl _) (le_refl _)]
      rfl

/-- Test `occursIn pat s`: true when `pat` occurs somewhere in `s` as a
contiguous substring. -/
def occursIn (pat : List Char) : List Char → Bool
  | [] => pat.isEmpty
  | c :: rest => leadsWith pat (c :: rest) || occursIn pat rest

theorem replaceAll_of_not_occurs (pat rep : List Char) :
    ∀ s : List Char, occursIn pat s = false → replaceAll pat rep s = s := by
  intro s
  induction s with
  | nil => intro _; rfl
  | cons c rest ih =>
    intro h
    simp only [occursIn, Bool.or_eq_false_iff] at h
    rw [replaceAll_eq]
    show (if pat ≠ [] ∧ leadsWith pat (c :: rest) = true then
            rep ++ replaceAll pat rep ((c :: rest).drop pat.length)
          else c :: replaceAll pat rep rest) = c :: rest
    rw [if_neg]
    · rw [ih h.2]
    · intro hc
      exact absurd h.1 (by simp [hc.2])

/-- The placeholder token `\x7b\x7bkey\x7d\x7d` over a character-list key. -/
def mkTokL (k : List Char) : List Char :=
  lbrace :: lbrace :: k ++ [rbrace, rbrace]

/-- The placeholder token `\x7b\x7bkey\x7d\x7d` as a character list. -/
def mkTok (s : String) : List Char :=
  mkTokL s.toList

/-- Last-entry-wins lookup in the custom-field bag, the behaviour of property
lookup on an object produced by `JSON.parse` (later duplicate keys shadow
earlier ones). -/
def customLookup (bag : List (String × JVal)) (k : String) : Option JVal :=
  bag.reverse.lookup k

/-- The replacement callback of
`personalized.replace(/\x7b\x7b([^\x7d]+)\x7d\x7d/g, (match, key) => customFields[key] || match)`:
a truthy custom-field value is substituted, anything else keeps the token. -/
def customCallback (bag : List (String × JVal)) (key : List Char) : List Char :=
  match customLookup bag (String.mk key) with
  | some v => if v.truthy then v.render.toList else lbrace :: lbrace :: key ++ [rbrace, rbrace]
  | none => lbrace :: lbrace :: key ++ [rbrace, rbrace]

/-- Global regex replacement for `/\x7b\x7b([^\x7d]+)\x7d\x7d/g` with the
custom-field callback: at each position, match two opening braces, a
nonempty run of non-`\x7d` characters, and two closing braces; on a match,
emit the callback result and continue after the match, otherwise copy one
character and continue. -/
def customReplaceF (bag : List (String × JVal)) : Nat → List Char → List Char
  | _, [] => []
  | _, [c] => [c]
  | 0, s => s
  | fuel + 1, c :: c2 :: rest2 =>
    if c = lbrace ∧ c2 = lbrace then
      let key := rest2.takeWhile (fun ch => ch ≠ rbrace)
      let after := rest2.drop key.length
      if key ≠ [] ∧ leadsWith [rbrace, rbrace] after = true then
        customCallback bag key ++ customReplaceF bag fuel (after.drop 2)
      else
        c :: customReplaceF bag fuel (c2 :: rest2)
    else
      c :: customReplaceF bag fuel (c2 :: rest2)

/-- The custom-field token replacement pass (fuel instantiated to the input
length, which every step strictly decreases). -/
def customReplace (bag : List (String × JVal)) (s : List Char) : List Char :=
  customReplaceF bag s.length s

theorem customReplaceF_irrel (bag : List (String × JVal)) : ∀ (f1 : Nat),
    ∀ (f2 : Nat) (s : List Char),
    s.length ≤ f1 → s.length ≤ f2 → customReplaceF bag f1 s = customReplaceF bag f2 s := by
  intro f1
  induction f1 with
  | zero =>
    intro f2 s h1 _
    have hnil : s = [] := List.eq_nil_of_length_eq_zero (Nat.le_zero.mp h1)
    subst hnil
    cases f2 <;> rfl
  | succ f1 ih =>
    intro f2 s h1 h2
    match s with
    | [] => cases f2 <;> rfl
    | [c] =>
      cases f2 with
      | zero => simp [List.length_cons] at h2
      | succ f2 => rfl
    | c :: c2 :: rest2 =>
      cases f2 with
      | zero => simp [List.length_cons] at h2
      | succ f2 =>
        simp only [customReplaceF]
        simp only [List.length_cons] at h1 h2
        have hdrop : ((rest2.drop (rest2.takeWhile (fun ch => ch ≠ rbrace)).length).drop 2).length
            ≤ rest2.length := by
          simp only [List.length_drop]
          omega
        split
        · split
          · rw [ih f2 _ (by omega) (by omega)]
          · rw [ih f2 (c2 :: rest2) (by simp [List.length_cons]; omega)
                (by simp [List.length_cons]; omega)]
        · rw [ih f2 (c2 :: rest2) (by simp [List.length_cons]; omega)
              (by simp [List.length_cons]; omega)]

/-- The wrapper satisfies the one-step recursion of the token scan. -/
theorem customReplace_eq (bag : List (String × JVal)) (s : List Char) :
    customReplace bag s =
      match s with
      | [] => []
      | [c] => [c]
      | c :: c2 :: rest2 =>
        if c = lbrace ∧ c2 = lbrace then
          let key := rest2.takeWhile (fun ch => ch ≠ rbrace)
          let after := rest2.drop key.length
          if key ≠ [] ∧ leadsWith [rbrace, rbrace] after = true then
            customCallback bag key ++ customReplace bag (after.drop 2)
          else
            c :: customReplace bag (c2 :: rest2)
        else
          c :: customReplace bag (c2 :: rest2) := by
  match s with
  | [] => rfl
  | [c] => rfl
  | c :: c2 :: rest2 =>
    show customReplaceF bag (rest2.length + 2) (c :: c2 :: rest2) = _
    simp only [customReplaceF]
    have hdrop : ((rest2.drop (rest2.takeWhile (fun ch => ch ≠ rbrace)).length).drop 2).length
        ≤ rest2.length + 1 := by
      simp only [List.length_drop]
      omega
    split
    · split
      · rw [customReplaceF_irrel bag (rest2.length + 1) _ _ hdrop (le_refl _)]
        rfl
      · rw [customReplaceF_irrel bag (rest2.length + 1) _ (c2 :: rest2)
            (by simp [List.length_cons]) (le_refl _)]
        rfl
    · rw [customReplaceF_irrel bag (rest2.length + 1) _ (c2 :: rest2)
          (by simp [List.length_cons]) (le_refl _)]
      rfl

/-- A contact row from the `contacts` table; nullable text columns are
`Option String`, and `custom_fields` is the parsed JSON bag. -/
structure Contact where
  id : Nat
  email : String
  name : Option String
  company : Option String
  position : Option String
  linkedin_url : Option String
  custom_fields : List (String × JVal)
  contacted : Bool
deriving DecidableEq

/-- Source expression `contact.name ? contact.name.split(' ')[0] : 'there'`: the first
space-delimited token of a truthy name, else the default. -/
def jsFirstName (name : Option String) : String :=
  match name with
  | some s => if s = "" then "there" else String.mk (s.toList.takeWhile (fun c => c ≠ ' '))
  | none => "there"

/-- Core of `personalizeContent` on character lists: the seven built-in
placeholder replacements in source order, then the custom-field pass. -/
def personalizeChars (content : List Char) (c : Contact) (userName : Option String) : List Char :=
  customReplace c.custom_fields
    (replaceAll (mkTok "myName") (jsOr userName "").toList
      (replaceAll (mkTok "linkedin") (jsOr c.linkedin_url "").toList
        (replaceAll (mkTok "position") (jsOr c.position "your role").toList
          (replaceAll (mkTok "company") (jsOr c.company "your company").toList
            (replaceAll (mkTok "email") c.email.toList
              (replaceAll (mkTok "firstName") (jsFirstName c.name).toList
                (replaceAll (mkTok "name") (jsOr c.name "there").toList content)))))))

/-- Function `personalizeContent(content, contact, campaign)` from src/server.js:
a falsy content yields `''`; otherwise built-ins are replaced and remaining
tokens resolved against the custom-field bag. `userName` is the
`campaign.user_name` the callers splice in. -/
def personalizeContent (content : Option String) (c : Contact) (userName : Option String) : String :=
  match content with
  | none => ""
  | some s => if s = "" then "" else String.mk (personalizeChars s.toList c userName)

/-- The seven built-in placeholder tokens recognised by `personalizeContent`. -/
def builtinToks : List (List Char) :=
  [mkTok "name", mkTok "firstName", mkTok "email", mkTok "company",
   mkTok "position", mkTok "linkedin", mkTok "myName"]

theorem takeWhile_append_rbrace (k t : List Char) (hk : ∀ c ∈ k, c ≠ rbrace) :
    (k ++ rbrace :: t).takeWhile (fun ch => ch ≠ rbrace) = k := by
  induction k with
  | nil => simp [List.takeWhile]
  | cons c rest ih =>
    have hc : c ≠ rbrace := hk c (by simp)
    have ih' := ih (fun x hx => hk x (by simp [hx]))
    simp only [List.cons_append]
    rw [List.takeWhile_cons_of_pos (by simp [hc]), ih']

theorem customReplace_tok (bag : List (String × JVal)) (k : List Char)
    (hne : k ≠ []) (hnb : ∀ c ∈ k, c ≠ rbrace)
    (hcb : customCallback bag k = mkTokL k) :
    customReplace bag (mkTokL k) = mkTokL k := by
  obtain ⟨c0, k', rfl⟩ : ∃ c0 k', k = c0 :: k' := by
    cases k with
    | nil => exact absurd rfl hne
    | cons a b => exact ⟨a, b, rfl⟩
  show customReplace bag (lbrace :: lbrace :: ((c0 :: k') ++ [rbrace, rbrace])) = _
  rw [customReplace_eq]
  have htw : ((c0 :: k') ++ [rbrace, rbrace]).takeWhile (fun ch => ch ≠ rbrace) = c0 :: k' := by
    have := takeWhile_append_rbrace (c0 :: k') [rbrace] hnb
    simpa using this
  simp only [htw]
  have hdrop : ((c0 :: k') ++ [rbrace, rbrace]).drop (c0 :: k').length = [rbrace, rbrace] :=
    List.drop_left _ _
  rw [if_pos (by simp)]
  rw [hdrop]
  rw [if_pos (by refine ⟨List.cons_ne_nil _ _, ?_⟩; simp [leadsWith])]
  show customCallback bag (c0 :: k') ++ customReplace bag [] = _
  rw [hcb]
  show mkTokL (c0 :: k') ++ ([] : List Char) = mkTokL (c0 :: k')
  simp

theorem personalizeChars_token (k : List Char) (c : Contact) (userName : Option String)
    (hb : ∀ b ∈ builtinToks, occursIn b (mkTokL k) = false)
    (hne : k ≠ []) (hnb : ∀ ch ∈ k, ch ≠ rbrace)
    (hcb : customCallback c.custom_fields k = mkTokL k) :
    personalizeChars (mkTokL k) c userName = mkTokL k := by
  unfold personalizeChars
  rw [replaceAll_of_not_occurs _ _ _ (hb _ (by simp [builtinToks]))]
  rw [replaceAll_of_not_occurs _ _ _ (hb _ (by simp [builtinToks]))]
  rw [replaceAll_of_not_occurs _ _ _ (hb _ (by simp [builtinToks]))]
  rw [replaceAll_of_not_occurs _ _ _ (hb _ (by simp [builtinToks]))]
  rw [replaceAll_of_not_occurs _ _ _ (hb _ (by simp [builtinToks]))]
  rw [replaceAll_of_not_occurs _ _ _ (hb _ (by simp [builtinToks]))]
  rw [replaceAll_of_not_occurs _ _ _ (hb _ (by simp [builtinToks]))]
  exact customReplace_tok _ _ hne hnb hcb

theorem mkString_tok_ne_empty (k : List Char) : String.mk (mkTokL k) ≠ "" := by
  intro h
  have : mkTokL k = [] := congrArg String.data h
  simp [mkTokL] at this

/-- Claim C9: a `\x7b\x7bkey\x7d\x7d` token whose key is not one of the seven
built-in placeholders and is absent from the contact's custom-field bag is
left verbatim by `personalizeContent`. -/
theorem C9_unknown_token_left_verbatim (k : List Char) (c : Contact) (userName : Option String)
    (hne : k ≠ []) (hnb : ∀ ch ∈ k, ch ≠ rbrace)
    (hb : ∀ b ∈ builtinToks, occursIn b (mkTokL k) = false)
    (hl : customLookup c.custom_fields (String.mk k) = none) :
    personalizeContent (some (String.mk (mkTokL k))) c userName = String.mk (mkTokL k) := by
  have hstep : personalizeContent (some (String.mk (mkTokL k))) c userName
      = if String.mk (mkTokL k) = "" then ""
        else String.mk (personalizeChars (String.mk (mkTokL k)).toList c userName) := rfl
  rw [hstep, if_neg (mkString_tok_ne_empty k)]
  have hcb : customCallback c.custom_fields k = mkTokL k := by
    unfold customCallback
    rw [hl]
    rfl
  have htl : (String.mk (mkTokL k)).toList = mkTokL k := rfl
  rw [htl, personalizeChars_token k c userName hb hne hnb hcb]

/-- Witness for C9 at the spec's own example key `unknownKey` and a contact
with an empty custom-field bag. -/
def wContact : Contact :=
  { id := 1, email := "jane@example.com", name := some "Jane Doe",
    company := some "Acme", position := none, linkedin_url := none,
    custom_fields := [], contacted := false }

theorem C9_unknown_token_left_verbatim_witness :
    personalizeContent (some (String.mk (mkTokL "unknownKey".toList))) wContact none
      = String.mk (mkTokL "unknownKey".toList) :=
  C9_unknown_token_left_verbatim "unknownKey".toList wContact none
    (by decide) (by decide) (by decide) (by decide)

/-- Claim C10: a token whose key maps to a falsy custom-field value (the empty
string, null, or 0) is also left verbatim, because the callback
`customFields[key] || match` falls back to the token on any falsy value. -/
theorem C10_falsy_custom_field_left_verbatim (k : List Char) (c : Contact)
    (userName : Option String) (v : JVal)
    (hne : k ≠ []) (hnb : ∀ ch ∈ k, ch ≠ rbrace)
    (hb : ∀ b ∈ builtinToks, occursIn b (mkTokL k) = false)
    (hl : customLookup c.custom_fields (String.mk k) = some v)
    (hv : v.truthy = false) :
    personalizeContent (some (String.mk (mkTokL k))) c userName = String.mk (mkTokL k) := by
  have hstep : personalizeContent (some (String.mk (mkTokL k))) c userName
      = if String.mk (mkTokL k) = "" then ""
        else String.mk (personalizeChars (String.mk (mkTokL k)).toList c userName) := rfl
  rw [hstep, if_neg (mkString_tok_ne_empty k)]
  have hcb : customCallback c.custom_fields k = mkTokL k := by
    unfold customCallback
    rw [hl]
    show (if v.truthy = true then v.render.toList
          else lbrace :: lbrace :: k ++ [rbrace, rbrace]) = mkTokL k
    rw [hv]
    simp [mkTokL]
  have htl : (String.mk (mkTokL k)).toList = mkTokL k := rfl
  rw [htl, personalizeChars_token k c userName hb hne hnb hcb]

/-- Contact whose custom-field bag stores the empty string under `budget`. -/
def wContactEmptyStr : Contact :=
  { wContact with custom_fields := [("budget", JVal.str "")] }

/-- Contact whose custom-field bag stores null under `budget`. -/
def wContactNull : Contact :=
  { wContact with custom_fields := [("budget", JVal.jnull)] }

/-- Contact whose custom-field bag stores 0 under `budget`. -/
def wContactZero : Contact :=
  { wContact with custom_fields := [("budget", JVal.num 0)] }

/-
Link Tracker Rewriter: `processLinksForTracking(htmlContent, trackingId)` in
src/server.js replaces every match of
`/<a\s+(?:[^>]*?\s+)?href\s*=\s*["\x27]([^"\x27]+)["\x27][^>]*>(.*?)<\/a>/gi`
with `<a href="\x24\x7bBASE_URL\x7d/track/click/\x24\x7btrackingId\x7d/\x24\x7blinkIndex\x7d">\x24\x7blinkText\x7d</a>`,
assigning 1-based indices in document order, and collects one
(index, originalUrl) record per match.  The matcher below implements that
regular expression (with JavaScript leftmost-match, greedy/lazy backtracking
semantics) over character lists.
-/

/-- JavaScript `\s` on the ASCII range plus NBSP (the whitespace characters
relevant to HTML input). -/
def isWs (c : Char) : Bool :=
  c = ' ' || c = Char.ofNat 9 || c = Char.ofNat 10 || c = Char.ofNat 13 ||
  c = Char.ofNat 11 || c = Char.ofNat 12 || c = Char.ofNat 160

/-- Case-insensitive character comparison, the `i` regex flag. -/
def ciEq (a b : Char) : Bool := a.toLower = b.toLower

/-- A double or single quote, the character class `["\x27]`. -/
def isQuote (c : Char) : Bool := c = '"' || c = squote

/-- JavaScript line terminators, which `.` does not match. -/
def isLineTerm (c : Char) : Bool :=
  c = Char.ofNat 10 || c = Char.ofNat 13 || c = Char.ofNat 0x2028 || c = Char.ofNat 0x2029

/-- Match a literal pattern case-insensitively at the head of `s`, returning
the remainder. -/
def stripCI : List Char → List Char → Option (List Char)
  | [], s => some s
  | _ :: _, [] => none
  | p :: ps, c :: cs => if ciEq p c then stripCI ps cs else none

/-- Regex fragment `[^>]*>` after the closing quote: skip the maximal run of non-`>`
characters, require the `>`, and return the capture with the remainder. -/
def hrefTagEnd (url s7 : List Char) : Option (List Char × List Char) :=
  match s7.drop (s7.takeWhile (fun ch => ch ≠ '>')).length with
  | [] => none
  | g :: s8 => if g = '>' then some (url, s8) else none

/-- Regex fragment `([^"\x27]+)["\x27]` after the opening quote: the greedy capture is the
maximal run of non-quote characters (nonempty), the follower is necessarily a
quote of either kind. -/
def hrefValue (s5 : List Char) : Option (List Char × List Char) :=
  match s5.drop (s5.takeWhile (fun ch => !(isQuote ch))).length with
  | [] => none
  | q2 :: s7 =>
    if s5.takeWhile (fun ch => !(isQuote ch)) ≠ [] ∧ isQuote q2 then
      hrefTagEnd (s5.takeWhile (fun ch => !(isQuote ch))) s7
    else none

/-- Regex fragment `\s*=\s*["\x27]` after the literal `href`: both `\s*` runs are greedy and
deterministic because `=` and the quotes are not whitespace. -/
def hrefAfterName (s1 : List Char) : Option (List Char × List Char) :=
  match s1.dropWhile isWs with
  | [] => none
  | c :: s3 =>
    if c = '=' then
      match s3.dropWhile isWs with
      | [] => none
      | q :: s5 => if isQuote q then hrefValue s5 else none
    else none

/-- Match `href\s*=\s*["\x27]([^"\x27]+)["\x27][^>]*>` at the head of `s`,
returning the captured URL and the remainder after `>`. -/
def tryHref (s : List Char) : Option (List Char × List Char) :=
  match stripCI "href".toList s with
  | none => none
  | some s1 => hrefAfterName s1

/-- The group-present branch `(?:[^>]*?\s+)?href…` explored in JavaScript
backtracking order: the lazy `[^>]*?` grows one character at a time (never
past `>`), and at each whitespace position the greedy `\s+` jumps to the end
of the whitespace run before `href` is attempted (an `h` can only follow the
maximal run). -/
def presentLoop (s : List Char) : Option (List Char × List Char) :=
  match s with
  | [] => none
  | c :: rest =>
    match (if isWs c then tryHref ((c :: rest).dropWhile isWs) else none) with
    | some r => some r
    | none => if c ≠ '>' then presentLoop rest else none

/-- Regex fragment `(?:[^>]*?\s+)?href…`: the greedy optional group tries the group-present
branch first, then the group-absent branch (`href` immediately). -/
def tryGroupHref (s : List Char) : Option (List Char × List Char) :=
  match presentLoop s with
  | some r => some r
  | none => tryHref s

/-- Does `</a>` (case-insensitive) start here? -/
def isCloseA : List Char → Bool
  | '<' :: '/' :: a :: '>' :: _ => ciEq a 'a'
  | _ => false

/-- Lazy `(.*?)<\/a>`: the body is everything up to the first `</a>`, and may
not contain a line terminator (`.` does not match them). -/
def findCloseA : List Char → Option (List Char × List Char)
  | [] => none
  | c :: rest =>
    if isCloseA (c :: rest) then some ([], (c :: rest).drop 4)
    else if isLineTerm c then none
    else
      match findCloseA rest with
      | some (body, r) => some (c :: body, r)
      | none => none

/-- Attempt the full anchor regex at the head of `s`: on success, return the
captured URL, the captured inner text, and the remainder of `s` after the
match. -/
def matchAnchorAt (s : List Char) : Option (List Char × List Char × List Char) :=
  match s with
  | lt :: a :: c :: rest =>
    if lt = '<' ∧ ciEq a 'a' ∧ isWs c then
      match tryGroupHref ((c :: rest).dropWhile isWs) with
      | some (url, afterGt) =>
        match findCloseA afterGt with
        | some (body, rest') => some (url, body, rest')
        | none => none
      | none => none
    else none
  | _ => none

theorem stripCI_isSuffix (p : List Char) :
    ∀ s r : List Char, stripCI p s = some r → r.IsSuffix s := by
  induction p with
  | nil =>
    intro s r h
    simp [stripCI] at h
    simp [h]
  | cons p ps ih =>
    intro s r h
    cases s with
    | nil => simp [stripCI] at h
    | cons c cs =>
      simp only [stripCI] at h
      split at h
      · exact (ih cs r h).trans (List.suffix_cons c cs)
      · exact absurd h (by simp)

theorem dropWhile_isSuffix (p : Char → Bool) (s : List Char) : (s.dropWhile p).IsSuffix s := by
  induction s with
  | nil => simp [List.dropWhile]
  | cons c cs ih =>
    rw [List.dropWhile_cons]
    split
    · exact ih.trans (List.suffix_cons c cs)
    · exact List.suffix_rfl

theorem hrefTagEnd_isSuffix (url s7 u r : List Char) (h : hrefTagEnd url s7 = some (u, r)) :
    r.IsSuffix s7 := by
  unfold hrefTagEnd at h
  split at h
  · exact absurd h (by simp)
  · rename_i g s8 heq
    split at h
    · simp at h
      have hs : s8.IsSuffix s7 := (List.suffix_cons g s8).trans (heq ▸ List.drop_suffix _ s7)
      exact h.2 ▸ hs
    · exact absurd h (by simp)

theorem hrefValue_isSuffix (s5 u r : List Char) (h : hrefValue s5 = some (u, r)) :
    r.IsSuffix s5 := by
  unfold hrefValue at h
  split at h
  · exact absurd h (by simp)
  · rename_i q2 s7 heq
    split at h
    · have hs7 : s7.IsSuffix s5 := (List.suffix_cons q2 s7).trans (heq ▸ List.drop_suffix _ s5)
      exact (hrefTagEnd_isSuffix _ s7 u r h).trans hs7
    · exact absurd h (by simp)

theorem hrefAfterName_isSuffix (s1 u r : List Char) (h : hrefAfterName s1 = some (u, r)) :
    r.IsSuffix s1 := by
  unfold hrefAfterName at h
  split at h
  · exact absurd h (by simp)
  · rename_i c s3 hdw
    have hs3 : s3.IsSuffix s1 :=
      (List.suffix_cons c s3).trans (hdw ▸ dropWhile_isSuffix isWs s1)
    split at h
    · split at h
      · exact absurd h (by simp)
      · rename_i q s5 hdw2
        have hs5 : s5.IsSuffix s3 :=
          (List.suffix_cons q s5).trans (hdw2 ▸ dropWhile_isSuffix isWs s3)
        split at h
        · exact ((hrefValue_isSuffix s5 u r h).trans hs5).trans hs3
        · exact absurd h (by simp)
    · exact absurd h (by simp)

theorem tryHref_isSuffix (s : List Char) (u r : List Char) (h : tryHref s = some (u, r)) :
    r.IsSuffix s := by
  unfold tryHref at h
  split at h
  · exact absurd h (by simp)
  · rename_i s1 hst
    exact (hrefAfterName_isSuffix s1 u r h).trans (stripCI_isSuffix _ _ _ hst)

theorem presentLoop_isSuffix :
    ∀ (s : List Char) (u r : List Char), presentLoop s = some (u, r) → r.IsSuffix s := by
  intro s
  induction s with
  | nil => intro u r h; simp [presentLoop] at h
  | cons c rest ih =>
    intro u r h
    rw [presentLoop] at h
    split at h
    · rename_i p heq
      have hp : p = (u, r) := by simpa using h
      subst hp
      split at heq
      · exact (tryHref_isSuffix _ u r heq).trans (dropWhile_isSuffix isWs (c :: rest))
      · exact absurd heq (by simp)
    · split at h
      · exact (ih u r h).trans (List.suffix_cons c rest)
      · exact absurd h (by simp)

theorem tryGroupHref_isSuffix (s : List Char) (u r : List Char)
    (h : tryGroupHref s = some (u, r)) : r.IsSuffix s := by
  unfold tryGroupHref at h
  split at h
  · rename_i p hp
    have : p = (u, r) := by simpa using h
    subst this
    exact presentLoop_isSuffix s u r hp
  · exact tryHref_isSuffix s u r h

theorem findCloseA_isSuffix :
    ∀ (s : List Char) (b r : List Char), findCloseA s = some (b, r) → r.IsSuffix s := by
  intro s
  induction s with
  | nil => intro b r h; simp [findCloseA] at h
  | cons c rest ih =>
    intro b r h
    rw [findCloseA] at h
    split at h
    · simp at h
      rw [← h.2]
      exact (List.drop_suffix 3 rest).trans (List.suffix_cons c rest)
    · split at h
      · exact absurd h (by simp)
      · split at h
        · rename_i body r2 heq
          simp at h
          exact h.2 ▸ ((ih body r2 heq).trans (List.suffix_cons c rest))
        · exact absurd h (by simp)

theorem matchAnchorAt_isSuffix (s u b r : List Char)
    (h : matchAnchorAt s = some (u, b, r)) : r.IsSuffix s ∧ r.length < s.length := by
  match s with
  | [] => simp [matchAnchorAt] at h
  | [x] => simp [matchAnchorAt] at h
  | [x, y] => simp [matchAnchorAt] at h
  | x :: a :: c :: rest =>
    rw [matchAnchorAt] at h
    split at h
    · split at h
      · rename_i u1 afterGt hg
        split at h
        · rename_i b1 r1 hf
          simp at h
          have hr : r1 = r := h.2.2
          have s1 : r1.IsSuffix afterGt := findCloseA_isSuffix afterGt b1 r1 hf
          have s2 : afterGt.IsSuffix ((c :: rest).dropWhile isWs) :=
            tryGroupHref_isSuffix _ u1 afterGt hg
          have s3 : ((c :: rest).dropWhile isWs).IsSuffix (c :: rest) := dropWhile_isSuffix _ _
          have s4 : (c :: rest).IsSuffix (x :: a :: c :: rest) :=
            (List.suffix_cons a (c :: rest)).trans (List.suffix_cons x (a :: c :: rest))
          have hs : r1.IsSuffix (x :: a :: c :: rest) := (((s1.trans s2).trans s3)).trans s4
          have hle : r1.length ≤ (c :: rest).length := (((s1.trans s2).trans s3)).length_le
          constructor
          · exact hr ▸ hs
          · have hle2 : r.length ≤ (c :: rest).length := hr ▸ hle
            simp only [List.length_cons] at hle2 ⊢
            omega
        · exact absurd h (by simp)
      · exact absurd h (by simp)
    · exact absurd h (by simp)

/-- The click-tracking redirect URL `BASE_URL/track/click/trackingId/linkIndex`
built by `processLinksForTracking`. -/
def trackClickUrl (base tid : List Char) (idx : Nat) : List Char :=
  base ++ "/track/click/".toList ++ tid ++ "/".toList ++ (toString idx).toList

/-- The replacement anchor `<a href="trackingUrl">linkText</a>` emitted for
the idx-th matched anchor. -/
def anchorRepl (base tid : List Char) (idx : Nat) (body : List Char) : List Char :=
  "<a href=\"".toList ++ trackClickUrl base tid idx ++ "\">".toList ++ body ++ "</a>".toList

/-- Fuel-indexed global-replace scan of `htmlContent.replace(linkRegex, cb)`:
at each position try the anchor regex; on a match emit the replacement with
the next 1-based index and continue after the match, otherwise copy one
character.  Each step consumes at least one character, so fuel at least the
input length gives the untruncated scan. -/
def rewriteLoopF (base tid : List Char) : Nat → List Char → Nat → List Char × List (Nat × List Char)
  | _, [], _ => ([], [])
  | 0, s, _ => (s, [])
  | fuel + 1, c :: rest, n =>
    match matchAnchorAt (c :: rest) with
    | some (url, body, rest') =>
      let q := rewriteLoopF base tid fuel rest' (n + 1)
      (anchorRepl base tid (n + 1) body ++ q.1, (n + 1, url) :: q.2)
    | none =>
      let q := rewriteLoopF base tid fuel rest n
      (c :: q.1, q.2)

/-- The global-replace scan at full fuel. -/
def rewriteLoop (base tid : List Char) (s : List Char) (n : Nat) :
    List Char × List (Nat × List Char) :=
  rewriteLoopF base tid s.length s n

theorem rewriteLoopF_irrel (base tid : List Char) : ∀ (f1 : Nat),
    ∀ (f2 : Nat) (s : List Char) (n : Nat), s.length ≤ f1 → s.length ≤ f2 →
    rewriteLoopF base tid f1 s n = rewriteLoopF base tid f2 s n := by
  intro f1
  induction f1 with
  | zero =>
    intro f2 s n h1 _
    have hnil : s = [] := List.eq_nil_of_length_eq_zero (Nat.le_zero.mp h1)
    subst hnil
    cases f2 <;> rfl
  | succ f1 ih =>
    intro f2 s n h1 h2
    cases s with
    | nil => cases f2 <;> rfl
    | cons c rest =>
      cases f2 with
      | zero => simp [List.length_cons] at h2
      | succ f2 =>
        simp only [List.length_cons] at h1 h2
        cases hm : matchAnchorAt (c :: rest) with
        | some p =>
          obtain ⟨url, body, rest'⟩ := p
          have hlt := (matchAnchorAt_isSuffix _ _ _ _ hm).2
          simp only [List.length_cons] at hlt
          simp only [rewriteLoopF, hm]
          rw [ih f2 rest' (n + 1) (by omega) (by omega)]
        | none =>
          simp only [rewriteLoopF, hm]
          rw [ih f2 rest n (by omega) (by omega)]

/-- Function `processLinksForTracking(htmlContent, trackingId)` from src/server.js,
with the module-level `BASE_URL` as an explicit parameter: returns the
rewritten HTML together with the (index, originalUrl) records it pushes into
`trackedLinks` in match order. -/
def processLinksForTracking (htmlContent trackingId base : List Char) :
    List Char × List (Nat × List Char) :=
  rewriteLoop base trackingId htmlContent 0

/-- Fuel-indexed specification-side decomposition of an HTML string under the
same scan: one (plainBefore, matchedText, url, body) segment per regex match,
plus the trailing unmatched text. -/
def segmentsOfF : Nat → List Char →
    List (List Char × List Char × List Char × List Char) × List Char
  | _, [] => ([], [])
  | 0, s => ([], s)
  | fuel + 1, c :: rest =>
    match matchAnchorAt (c :: rest) with
    | some (url, body, rest') =>
      let matched := (c :: rest).take ((c :: rest).length - rest'.length)
      let q := segmentsOfF fuel rest'
      (([], matched, url, body) :: q.1, q.2)
    | none =>
      let q := segmentsOfF fuel rest
      match q.1 with
      | [] => ([], c :: q.2)
      | (p, m, u, b) :: t => ((c :: p, m, u, b) :: t, q.2)

/-- The decomposition at full fuel. -/
def segmentsOf (s : List Char) :
    List (List Char × List Char × List Char × List Char) × List Char :=
  segmentsOfF s.length s

theorem segmentsOfF_irrel : ∀ (f1 : Nat), ∀ (f2 : Nat) (s : List Char),
    s.length ≤ f1 → s.length ≤ f2 → segmentsOfF f1 s = segmentsOfF f2 s := by
  intro f1
  induction f1 with
  | zero =>
    intro f2 s h1 _
    have hnil : s = [] := List.eq_nil_of_length_eq_zero (Nat.le_zero.mp h1)
    subst hnil
    cases f2 <;> rfl
  | succ f1 ih =>
    intro f2 s h1 h2
    cases s with
    | nil => cases f2 <;> rfl
    | cons c rest =>
      cases f2 with
      | zero => simp [List.length_cons] at h2
      | succ f2 =>
        simp only [List.length_cons] at h1 h2
        cases hm : matchAnchorAt (c :: rest) with
        | some p =>
          obtain ⟨url, body, rest'⟩ := p
          have hlt := (matchAnchorAt_isSuffix _ _ _ _ hm).2
          simp only [List.length_cons] at hlt
          simp only [segmentsOfF, hm]
          rw [ih f2 rest' (by omega) (by omega)]
        | none =>
          simp only [segmentsOfF, hm]
          rw [ih f2 rest (by omega) (by omega)]

/-- Reassemble the original input from its segments. -/
def joinSegs : List (List Char × List Char × List Char × List Char) → List Char → List Char
  | [], tail => tail
  | (p, m, _, _) :: t, tail => p ++ m ++ joinSegs t tail

/-- Reassemble the rewritten output: each matched anchor is replaced by the
tracking anchor with its 1-based index, plain text is kept. -/
def renderSegs (base tid : List Char) :
    List (List Char × List Char × List Char × List Char) → List Char → Nat → List Char
  | [], tail, _ => tail
  | (p, _, _, b) :: t, tail, n => p ++ anchorRepl base tid (n + 1) b ++ renderSegs base tid t tail (n + 1)

/-- The (index, originalUrl) records of the segments, numbered from `n+1`. -/
def linksSegs : List (List Char × List Char × List Char × List Char) → Nat → List (Nat × List Char)
  | [], _ => []
  | (_, _, u, _) :: t, n => (n + 1, u) :: linksSegs t (n + 1)

theorem rewriteLoop_some (base tid s : List Char) (n : Nat) (url body rest' : List Char)
    (hm : matchAnchorAt s = some (url, body, rest')) :
    rewriteLoop base tid s n =
      (anchorRepl base tid (n + 1) body ++ (rewriteLoop base tid rest' (n + 1)).1,
       (n + 1, url) :: (rewriteLoop base tid rest' (n + 1)).2) := by
  cases s with
  | nil => simp [matchAnchorAt] at hm
  | cons c rest =>
    show rewriteLoopF base tid (rest.length + 1) (c :: rest) n = _
    have hlt := (matchAnchorAt_isSuffix _ _ _ _ hm).2
    simp only [List.length_cons] at hlt
    simp only [rewriteLoopF, hm]
    rw [rewriteLoopF_irrel base tid rest.length rest'.length rest' (n + 1)
          (by omega) (le_refl _)]
    rfl

theorem rewriteLoop_nil (base tid : List Char) (n : Nat) :
    rewriteLoop base tid [] n = ([], []) := rfl

theorem rewriteLoop_cons_none (base tid : List Char) (c : Char) (rest : List Char) (n : Nat)
    (hm : matchAnchorAt (c :: rest) = none) :
    rewriteLoop base tid (c :: rest) n =
      (c :: (rewriteLoop base tid rest n).1, (rewriteLoop base tid rest n).2) := by
  show rewriteLoopF base tid (rest.length + 1) (c :: rest) n = _
  simp only [rewriteLoopF, hm]
  rfl

theorem segmentsOf_some (s url body rest' : List Char)
    (hm : matchAnchorAt s = some (url, body, rest')) :
    segmentsOf s =
      (([], s.take (s.length - rest'.length), url, body) :: (segmentsOf rest').1,
       (segmentsOf rest').2) := by
  cases s with
  | nil => simp [matchAnchorAt] at hm
  | cons c rest =>
    show segmentsOfF (rest.length + 1) (c :: rest) = _
    have hlt := (matchAnchorAt_isSuffix _ _ _ _ hm).2
    simp only [List.length_cons] at hlt
    simp only [segmentsOfF, hm]
    rw [segmentsOfF_irrel rest.length rest'.length rest' (by omega) (le_refl _)]
    rfl

theorem segmentsOf_nil : segmentsOf [] = ([], []) := rfl

theorem segmentsOf_cons_none (c : Char) (rest : List Char)
    (hm : matchAnchorAt (c :: rest) = none) :
    segmentsOf (c :: rest) =
      (match (segmentsOf rest).1 with
       | [] => ([], c :: (segmentsOf rest).2)
       | (p, m, u, b) :: t => ((c :: p, m, u, b) :: t, (segmentsOf rest).2)) := by
  show segmentsOfF (rest.length + 1) (c :: rest) = _
  simp only [segmentsOfF, hm]
  rfl

theorem joinSegs_segmentsOf : ∀ (N : Nat) (s : List Char), s.length ≤ N →
    joinSegs (segmentsOf s).1 (segmentsOf s).2 = s := by
  intro N
  induction N with
  | zero =>
    intro s hs
    have hnil : s = [] := List.eq_nil_of_length_eq_zero (Nat.le_zero.mp hs)
    subst hnil
    rw [segmentsOf_nil]
    rfl
  | succ N ih =>
    intro s hs
    cases hm : matchAnchorAt s with
    | some p =>
      obtain ⟨url, body, rest'⟩ := p
      rw [segmentsOf_some s url body rest' hm]
      obtain ⟨hsuf, hlt⟩ := matchAnchorAt_isSuffix s url body rest' hm
      obtain ⟨m, hm2⟩ := hsuf
      have htake : s.take (s.length - rest'.length) = m := by
        rw [← hm2, List.length_append]
        have harith : m.length + rest'.length - rest'.length = m.length := by omega
        rw [harith, List.take_left]
      have hrec : joinSegs (segmentsOf rest').1 (segmentsOf rest').2 = rest' :=
        ih rest' (by omega)
      show [] ++ s.take (s.length - rest'.length) ++ joinSegs (segmentsOf rest').1 (segmentsOf rest').2 = s
      rw [htake, hrec, List.nil_append, hm2]
    | none =>
      cases s with
      | nil => rw [segmentsOf_nil]; rfl
      | cons c rest =>
        have hrest : rest.length ≤ N := by
          simp only [List.length_cons] at hs
          omega
        have ihr := ih rest hrest
        rw [segmentsOf_cons_none c rest hm]
        cases hq : (segmentsOf rest).1 with
        | nil =>
          rw [hq] at ihr
          show joinSegs [] (c :: (segmentsOf rest).2) = c :: rest
          show c :: (segmentsOf rest).2 = c :: rest
          have : (segmentsOf rest).2 = rest := by
            have hj : joinSegs [] (segmentsOf rest).2 = rest := ihr
            exact hj
          rw [this]
        | cons seg t =>
          obtain ⟨p2, m2, u2, b2⟩ := seg
          rw [hq] at ihr
          show joinSegs ((c :: p2, m2, u2, b2) :: t) (segmentsOf rest).2 = c :: rest
          show (c :: p2) ++ m2 ++ joinSegs t (segmentsOf rest).2 = c :: rest
          have hj : p2 ++ m2 ++ joinSegs t (segmentsOf rest).2 = rest := ihr
          simp only [List.cons_append]
          rw [hj]

theorem rewriteLoop_eq_segs (base tid : List Char) : ∀ (N : Nat) (s : List Char),
    s.length ≤ N → ∀ n : Nat,
    rewriteLoop base tid s n =
      (renderSegs base tid (segmentsOf s).1 (segmentsOf s).2 n,
       linksSegs (segmentsOf s).1 n) := by
  intro N
  induction N with
  | zero =>
    intro s hs n
    have hnil : s = [] := List.eq_nil_of_length_eq_zero (Nat.le_zero.mp hs)
    subst hnil
    rw [segmentsOf_nil, rewriteLoop_nil]
    rfl
  | succ N ih =>
    intro s hs n
    cases hm : matchAnchorAt s with
    | some p =>
      obtain ⟨url, body, rest'⟩ := p
      obtain ⟨hsuf, hlt⟩ := matchAnchorAt_isSuffix s url body rest' hm
      rw [rewriteLoop_some base tid s n url body rest' hm,
          segmentsOf_some s url body rest' hm]
      rw [ih rest' (by omega) (n + 1)]
      rfl
    | none =>
      cases s with
      | nil =>
        rw [segmentsOf_nil, rewriteLoop_nil]
        rfl
      | cons c rest =>
        have hrest : rest.length ≤ N := by
          simp only [List.length_cons] at hs
          omega
        rw [rewriteLoop_cons_none base tid c rest n hm, segmentsOf_cons_none c rest hm,
            ih rest hrest n]
        cases hq : (segmentsOf rest).1 with
        | nil => rfl
        | cons seg t =>
          obtain ⟨p2, m2, u2, b2⟩ := seg
          rfl

theorem linksSegs_map_fst : ∀ (segs : List (List Char × List Char × List Char × List Char))
    (n : Nat), (linksSegs segs n).map Prod.fst = List.range' (n + 1) segs.length := by
  intro segs
  induction segs with
  | nil => intro n; simp [linksSegs]
  | cons seg t ih =>
    intro n
    obtain ⟨p, m, u, b⟩ := seg
    simp only [linksSegs, List.map_cons, List.length_cons, List.range'_succ]
    rw [ih (n + 1)]

theorem linksSegs_map_snd : ∀ (segs : List (List Char × List Char × List Char × List Char))
    (n : Nat), (linksSegs segs n).map Prod.snd = segs.map (fun x => x.2.2.1) := by
  intro segs
  induction segs with
  | nil => intro n; simp [linksSegs]
  | cons seg t ih =>
    intro n
    obtain ⟨p, m, u, b⟩ := seg
    simp only [linksSegs, List.map_cons]
    rw [ih (n + 1)]

/-- Claim C5: for every HTML string, the anchors matched by the rewriter's
scanning discipline decompose the input into plain text and matched anchors
(`joinSegs`); `processLinksForTracking` emits exactly one tracked-link record
per matched anchor with indices 1..N in document order carrying the original
URLs, and the output HTML replaces the i-th matched anchor by
`<a href="base/track/click/tid/i">` around its unchanged inner text while
keeping all plain text (`renderSegs`); with zero matched anchors the HTML is
returned unchanged and the link list is empty. -/
theorem C5_link_rewriting (html tid base : List Char) :
    (processLinksForTracking html tid base).2.map Prod.fst
        = List.range' 1 (segmentsOf html).1.length
    ∧ (processLinksForTracking html tid base).2.map Prod.snd
        = (segmentsOf html).1.map (fun x => x.2.2.1)
    ∧ html = joinSegs (segmentsOf html).1 (segmentsOf html).2
    ∧ (processLinksForTracking html tid base).1
        = renderSegs base tid (segmentsOf html).1 (segmentsOf html).2 0
    ∧ ((segmentsOf html).1 = [] →
        (processLinksForTracking html tid base).1 = html
        ∧ (processLinksForTracking html tid base).2 = []) := by
  have hA := rewriteLoop_eq_segs base tid html.length html (le_refl _) 0
  have hB := joinSegs_segmentsOf html.length html (le_refl _)
  unfold processLinksForTracking
  refine ⟨?_, ?_, hB.symm, ?_, ?_⟩
  · rw [hA]
    exact linksSegs_map_fst _ 0
  · rw [hA]
    exact linksSegs_map_snd _ 0
  · rw [hA]
  · intro hseg
    have htail : (segmentsOf html).2 = html := by
      have hB2 := hB
      rw [hseg] at hB2
      exact hB2
    constructor
    · rw [hA, hseg]
      exact htail
    · rw [hA, hseg]
      rfl

/-- Witness for C5 at a concrete two-anchor input. -/
theorem C5_link_rewriting_witness :
    ((processLinksForTracking
        "<p><a href=\"https://a.example/x\">A</a> and <a href=\"https://b.example/y\">B</a></p>".toList
        "tid-1".toList "https://base".toList).2.map Prod.fst
      = List.range' 1 (segmentsOf
        "<p><a href=\"https://a.example/x\">A</a> and <a href=\"https://b.example/y\">B</a></p>".toList).1.length)
    ∧ ((processLinksForTracking
        "<p><a href=\"https://a.example/x\">A</a> and <a href=\"https://b.example/y\">B</a></p>".toList
        "tid-1".toList "https://base".toList).2.map Prod.snd
      = (segmentsOf
        "<p><a href=\"https://a.example/x\">A</a> and <a href=\"https://b.example/y\">B</a></p>".toList).1.map
          (fun x => x.2.2.1)) :=
  ⟨(C5_link_rewriting
      "<p><a href=\"https://a.example/x\">A</a> and <a href=\"https://b.example/y\">B</a></p>".toList
      "tid-1".toList "https://base".toList).1,
   (C5_link_rewriting
      "<p><a href=\"https://a.example/x\">A</a> and <a href=\"https://b.example/y\">B</a></p>".toList
      "tid-1".toList "https://base".toList).2.1⟩

/-
Tracking state: the email_tracking and tracked_links tables and the two
tracking HTTP endpoints of src/server.js.
-/

/-- A row of the `email_tracking` table (schema defaults: opened=0,
clicked=0, clicks_count=0, nullable timestamps and request metadata). -/
structure TrackRow where
  campaign_id : Nat
  contact_id : Nat
  email : String
  tracking_id : String
  opened : Bool
  opened_at : Option Nat
  clicked : Bool
  clicked_at : Option Nat
  clicks_count : Nat
  user_agent : Option String
  ip_address : Option String
deriving DecidableEq

/-- The email_tracking row inserted by `sendSingleEmailWithUserGmail` before
the transport call, with the schema's column defaults. -/
def newTrackRow (cid ctid : Nat) (email tid : String) : TrackRow :=
  { campaign_id := cid, contact_id := ctid, email := email, tracking_id := tid,
    opened := false, opened_at := none, clicked := false, clicked_at := none,
    clicks_count := 0, user_agent := none, ip_address := none }

/-- A row of the `tracked_links` table.  `id` is the AUTOINCREMENT primary
key; the table has no per-email link-index column. -/
structure TrackedLinkRow where
  id : Nat
  tracking_id : String
  original_url : String
  user_agent : Option String
  ip_address : Option String
deriving DecidableEq

/-- The `tracked_links` table with its AUTOINCREMENT counter (SQLite starts
row ids at 1). -/
structure TLState where
  rows : List TrackedLinkRow
  nextId : Nat
deriving DecidableEq

/-- Fresh tracked_links table. -/
def TLState.empty : TLState := { rows := [], nextId := 1 }

/-- The database effect of `processLinksForTracking`: one
`INSERT INTO tracked_links (tracking_id, original_url)` per collected link,
in match order.  The per-email 1-based index of each link is NOT stored. -/
def insertTrackedLinks (st : TLState) (tid : String) (links : List (Nat × List Char)) : TLState :=
  links.foldl (fun acc l =>
    { rows := acc.rows ++ [{ id := acc.nextId, tracking_id := tid,
                             original_url := String.mk l.2,
                             user_agent := none, ip_address := none }],
      nextId := acc.nextId + 1 }) st

/-- The fixed 1x1 transparent PNG returned by the open-tracking endpoint,
as its base64 source text. -/
def pixelBase64 : String :=
  "iVBORw0KGgoAAAANSUhEUgAAAAEAAAABCAYAAAAfFcSJAAAADUlEQVR42mNkYPhfDwAChwGA60e6kgAAAABJRU5ErkJggg=="

/-- GET /track/open/:trackingId: run
`UPDATE email_tracking SET opened = 1, opened_at = now, user_agent, ip_address
WHERE tracking_id = ? AND opened = 0` and always answer with the fixed pixel. -/
def openEndpoint (et : List TrackRow) (tid : String) (ua ip : Option String) (now : Nat) :
    List TrackRow × String :=
  (et.map (fun r =>
      if r.tracking_id = tid ∧ r.opened = false then
        { r with opened := true, opened_at := some now, user_agent := ua, ip_address := ip }
      else r),
   pixelBase64)

/-- Response of the click-tracking endpoint. -/
inductive ClickResponse
  | notFound
  | redirect (url : String)
deriving DecidableEq

/-- GET /track/click/:trackingId/:linkIndex: the lookup is
`SELECT original_url FROM tracked_links WHERE tracking_id = ? AND id = ?`,
so the URL's linkIndex is compared against the AUTOINCREMENT row id.  On a
hit a click-log row is inserted into tracked_links, every email_tracking row
with this tracking_id gets clicked = 1 and clicks_count + 1, and the response
redirects to the stored URL; on a miss the response is 404.  (The cascading
`outreach_campaigns.clicked_count` statistics update is not modelled.) -/
def clickEndpoint (tl : TLState) (et : List TrackRow) (tid : String) (linkIndex : Nat)
    (ua ip : Option String) (now : Nat) : TLState × List TrackRow × ClickResponse :=
  match tl.rows.find? (fun r => decide (r.tracking_id = tid ∧ r.id = linkIndex)) with
  | none => (tl, et, .notFound)
  | some link =>
    ({ rows := tl.rows ++ [{ id := tl.nextId, tracking_id := tid,
                             original_url := link.original_url,
                             user_agent := ua, ip_address := ip }],
       nextId := tl.nextId + 1 },
     et.map (fun r =>
       if r.tracking_id = tid then
         { r with clicked := true, clicked_at := some now, clicks_count := r.clicks_count + 1 }
       else r),
     .redirect link.original_url)

/-- Claim C7: the open endpoint is first-write-wins idempotent.  A second
call with the same tracking ID changes no row (neither openedAt nor the
captured request metadata), both calls return the fixed pixel regardless of
whether any record matches, and after the first call every row with this
tracking ID is marked opened. -/
theorem C7_open_idempotent (et : List TrackRow) (tid : String)
    (ua1 ip1 : Option String) (t1 : Nat) (ua2 ip2 : Option String) (t2 : Nat) :
    (openEndpoint (openEndpoint et tid ua1 ip1 t1).1 tid ua2 ip2 t2).1
        = (openEndpoint et tid ua1 ip1 t1).1
    ∧ (openEndpoint et tid ua1 ip1 t1).2 = pixelBase64
    ∧ (openEndpoint (openEndpoint et tid ua1 ip1 t1).1 tid ua2 ip2 t2).2 = pixelBase64
    ∧ ∀ r ∈ (openEndpoint et tid ua1 ip1 t1).1, r.tracking_id = tid → r.opened = true := by
  refine ⟨?_, rfl, rfl, ?_⟩
  · show ((et.map _).map _) = et.map _
    rw [List.map_map]
    congr 1
    funext r
    by_cases h1 : r.tracking_id = tid
    · by_cases h2 : r.opened = false
      · simp [Function.comp, h1, h2]
      · simp [Function.comp, h1, h2]
    · simp [Function.comp, h1]
  · intro r hr htid
    obtain ⟨x, _, hx⟩ := List.mem_map.mp hr
    by_cases h1 : x.tracking_id = tid
    · by_cases h2 : x.opened = false
      · rw [← hx]
        simp [h1, h2]
      · have hop : x.opened = true := by
          cases hx2 : x.opened
          · exact absurd hx2 h2
          · rfl
        rw [← hx]
        rw [if_neg (fun hc => h2 hc.2)]
        exact hop
    · rw [← hx] at htid
      rw [if_neg (fun hc => h1 hc.1)] at htid
      exact absurd htid h1

/-- Witness for C7 at a concrete one-row table. -/
theorem C7_open_idempotent_witness :
    (openEndpoint (openEndpoint [newTrackRow 7 1 "x@example.com" "tidW"] "tidW"
        (some "UA1") (some "1.2.3.4") 100).1 "tidW" (some "UA2") (some "5.6.7.8") 200).1
      = (openEndpoint [newTrackRow 7 1 "x@example.com" "tidW"] "tidW"
        (some "UA1") (some "1.2.3.4") 100).1
    ∧ (openEndpoint [newTrackRow 7 1 "x@example.com" "tidW"] "tidW"
        (some "UA1") (some "1.2.3.4") 100).2 = pixelBase64 :=
  ⟨(C7_open_idempotent [newTrackRow 7 1 "x@example.com" "tidW"] "tidW"
      (some "UA1") (some "1.2.3.4") 100 (some "UA2") (some "5.6.7.8") 200).1,
   (C7_open_idempotent [newTrackRow 7 1 "x@example.com" "tidW"] "tidW"
      (some "UA1") (some "1.2.3.4") 100 (some "UA2") (some "5.6.7.8") 200).2.1⟩

/-- Supporting inputs for the C4 failing scenario: two one-link emails. -/
def c4html1 : List Char := "<a href=\"https://a.example/\">A</a>".toList

/-- Second email body for the C4 scenario. -/
def c4html2 : List Char := "<a href=\"https://b.example/\">B</a>".toList

/-- The tracked_links table after the rewriter's inserts for both emails:
row 1 is (tid1, https://a.example/), row 2 is (tid2, https://b.example/). -/
def c4state : TLState :=
  insertTrackedLinks
    (insertTrackedLinks TLState.empty "tid1"
      (processLinksForTracking c4html1 "tid1".toList "https://base".toList).2)
    "tid2"
    (processLinksForTracking c4html2 "tid2".toList "https://base".toList).2

/-- Claim C4 failing input: the rewriter stamps the second email's only link
with per-email index 1 (its html carries `/track/click/tid2/1`), but the
click endpoint resolves (tid2, 1) against the global AUTOINCREMENT row id, so
the lookup misses the (id = 2, tid2) row and answers 404 instead of
redirecting; resolving (tid2, 2) — the row id, which no sent email links
to — is what redirects to the stored URL. -/
theorem C4_click_lookup_bug :
    (processLinksForTracking c4html2 "tid2".toList "https://base".toList).2
        = [(1, "https://b.example/".toList)]
    ∧ occursIn (trackClickUrl "https://base".toList "tid2".toList 1)
        (processLinksForTracking c4html2 "tid2".toList "https://base".toList).1 = true
    ∧ (clickEndpoint c4state [newTrackRow 7 1 "x@example.com" "tid2"] "tid2" 1 none none 0).2.2
        = ClickResponse.notFound
    ∧ (clickEndpoint c4state [newTrackRow 7 1 "x@example.com" "tid2"] "tid2" 2 none none 0).2.2
        = ClickResponse.redirect "https://b.example/" := by
  refine ⟨by decide, by decide, by decide, by decide⟩

/-
The Delivery Dispatcher and Campaign Runner:
`sendSingleEmailWithUserGmail`, `sendEmailsWithUserGmail` and
POST /api/campaigns/:id/send from src/server.js.
-/

/-- A campaign joined with its template, as fetched by the send route. -/
structure CampaignData where
  id : Nat
  name : String
  subject : Option String
  html_body : Option String
  text_body : Option String
  settingsDelay : Option Nat
deriving DecidableEq

/-- The sender's `users` row fields used by the send pipeline. -/
structure UserRow where
  id : Nat
  name : Option String
  signature : Option String
  gmail_configured : Bool
  gmail_address : Option String
  gmail_app_password : Option String
deriving DecidableEq

/-- Source expression `Math.max(settings.delay || 30000, 15000)`: a falsy configured delay
falls back to 30000 ms, and the result is floor-clamped to 15000 ms. -/
def effectiveDelay (settingsDelay : Option Nat) : Nat :=
  max (match settingsDelay with
       | some d => if d = 0 then 30000 else d
       | none => 30000) 15000

/-- The tracking pixel `<img src="baseUrl/track/open/trackingId" ...>`. -/
def trackingPixel (baseUrl tid : List Char) : List Char :=
  "<img src=\"".toList ++ baseUrl ++ "/track/open/".toList ++ tid
    ++ "\" width=\"1\" height=\"1\" style=\"display:none;\" alt=\"\">".toList

/-- The HTML body handed to `transporter.sendMail` by
`sendSingleEmailWithUserGmail`: the personalized html body, then the tracking
pixel, then — for a truthy signature — `<br><br>` plus the signature with
newlines converted to `<br>`.  Note that `processLinksForTracking` is never
invoked on this path. -/
def sendSingleHtml (html_body : Option String) (ct : Contact) (userName : Option String)
    (signature : Option String) (baseUrl tid : List Char) : List Char :=
  let ph := (personalizeContent html_body ct userName).toList ++ trackingPixel baseUrl tid
  match signature with
  | some sig =>
    if sig = "" then ph
    else ph ++ "<br><br>".toList ++ replaceAll [Char.ofNat 10] "<br>".toList sig.toList
  | none => ph

/-- Per-attempt outcome of one iteration of the send loop.  `ok` is a
successful dispatch; `fail` covers a transport failure or the 10-second
`Promise.race` timeout, with the catch-block `logOutreach` insert
succeeding; `failLogError` is a failure whose catch-block log insert itself
rejects, so the exception escapes the loop. -/
inductive AttemptOutcome
  | ok
  | fail (err : String)
  | failLogError (err : String)
deriving DecidableEq

/-- A row of the `email_logs` table (the Outreach Log). -/
structure LogRow where
  campaign_id : Nat
  contact_id : Nat
  email : String
  status : String
  subject : String
  notes : Option String
deriving DecidableEq

/-- Accumulated effects of the send loop of `sendEmailsWithUserGmail`:
the counters, the sequence of intermediate `UPDATE ... SET sent_count`
writes, the appended email_logs rows, the contacts marked contacted, the
email_tracking inserts (contact id, tracking id), whether an exception
escaped the loop, and the number of attempts made. -/
structure LoopOut where
  sent : Nat
  failed : Nat
  writes : List Nat
  logs : List LogRow
  marked : List Nat
  tracking : List (Nat × String)
  escaped : Bool
  attempts : Nat
deriving DecidableEq

/-- The `for (let i = 0; i < maxEmails; i++)` loop of
`sendEmailsWithUserGmail` over the batch slice, with `outcome i` the
transport result of attempt `i` and `tids i` the uuid drawn for it.  On
success (`sendSingleEmailWithUserGmail` resolves): tracking insert, contact
marked contacted, `sent` log with the personalized subject, `sentCount++`
and its persistence.  On failure: tracking insert (done before the transport
call), `failedCount++`, `failed` log with the error detail.  On
`failLogError`: tracking insert, `failedCount++`, then the rejected log
insert aborts the loop. -/
def runLoop (cid : Nat) (subj : Contact → String) (outcome : Nat → AttemptOutcome)
    (tids : Nat → String) : List Contact → Nat → Nat → Nat → LoopOut
  | [], _, sent, failed =>
    { sent := sent, failed := failed, writes := [], logs := [], marked := [],
      tracking := [], escaped := false, attempts := 0 }
  | contact :: rest, i, sent, failed =>
    match outcome i with
    | .ok =>
      let r := runLoop cid subj outcome tids rest (i + 1) (sent + 1) failed
      { sent := r.sent, failed := r.failed,
        writes := (sent + 1) :: r.writes,
        logs := { campaign_id := cid, contact_id := contact.id, email := contact.email,
                  status := "sent", subject := subj contact, notes := none } :: r.logs,
        marked := contact.id :: r.marked,
        tracking := (contact.id, tids i) :: r.tracking,
        escaped := r.escaped, attempts := r.attempts + 1 }
    | .fail e =>
      let r := runLoop cid subj outcome tids rest (i + 1) sent (failed + 1)
      { sent := r.sent, failed := r.failed, writes := r.writes,
        logs := { campaign_id := cid, contact_id := contact.id, email := contact.email,
                  status := "failed", subject := "", notes := some e } :: r.logs,
        marked := r.marked,
        tracking := (contact.id, tids i) :: r.tracking,
        escaped := r.escaped, attempts := r.attempts + 1 }
    | .failLogError _ =>
      { sent := sent, failed := failed + 1, writes := [], logs := [], marked := [],
        tracking := [(contact.id, tids i)], escaped := true, attempts := 1 }

/-- Result of `sendEmailsWithUserGmail`: the loop effects plus the final
`UPDATE outreach_campaigns SET status, sent_count` (absent when an exception
escaped the loop before reaching it). -/
structure RunOutput where
  loop : LoopOut
  finalWrite : Option (String × Nat)
deriving DecidableEq

/-- Function `sendEmailsWithUserGmail(campaignId, campaign, contacts, user, transporter)`:
cap the batch at `maxEmails = Math.min(contacts.length, 20)`, run the loop,
then write the final status — `completed` when at least one send succeeded,
else `failed` — together with the final sent count. -/
def sendEmailsWithUserGmail (campaign : CampaignData) (contacts : List Contact)
    (user : UserRow) (outcome : Nat → AttemptOutcome) (tids : Nat → String) : RunOutput :=
  let l := runLoop campaign.id
      (fun ct => personalizeContent campaign.subject ct user.name)
      outcome tids (contacts.take (min contacts.length 20)) 0 0 0
  { loop := l,
    finalWrite :=
      if l.escaped then none
      else some (if l.sent > 0 then "completed" else "failed", l.sent) }

/-- The campaign status after the detached background task finishes: the
loop's own final write, or `failed` written by the `.catch` handler of the
`setImmediate` wrapper when the loop rejected. -/
def backgroundFinalStatus (run : RunOutput) : String :=
  match run.finalWrite with
  | some (st, _) => st
  | none => "failed"

/-- JavaScript truthiness of a nullable string column. -/
def truthyOpt (s : Option String) : Bool :=
  match s with
  | some x => !(x = "")
  | none => false

/-- Outcome of POST /api/campaigns/:id/send. -/
inductive RouteResult
  | errGmailNotConfigured
  | errGmailVerifyFailed
  | errCampaignNotFound
  | errNoContacts
  | started (totalContacts : Nat) (finalStatus : String) (run : RunOutput)
deriving DecidableEq

/-- POST /api/campaigns/:id/send: reject unless the user's Gmail is
configured and its credentials present; reject when `transporter.verify()`
fails; reject when the campaign/template join finds nothing; fetch the
un-contacted contacts (`SELECT ... WHERE contacted = 0 LIMIT 50`, modelled
as the first 50 of `eligible`); reject when none remain; otherwise write
status = `sending` with total_contacts = batch size, respond, and run the
background send whose terminal status lands via `sendEmailsWithUserGmail`
or the `.catch` handler. -/
def postCampaignSend (user : UserRow) (verifyOk : Bool) (campaignData : Option CampaignData)
    (eligible : List Contact) (outcome : Nat → AttemptOutcome) (tids : Nat → String) :
    RouteResult :=
  if ¬(user.gmail_configured = true ∧ truthyOpt user.gmail_address = true ∧
        truthyOpt user.gmail_app_password = true) then
    .errGmailNotConfigured
  else if ¬(verifyOk = true) then .errGmailVerifyFailed
  else
    match campaignData with
    | none => .errCampaignNotFound
    | some cd =>
      if (eligible.take 50).length = 0 then .errNoContacts
      else
        .started (eligible.take 50).length
          (backgroundFinalStatus (sendEmailsWithUserGmail cd (eligible.take 50) user outcome tids))
          (sendEmailsWithUserGmail cd (eligible.take 50) user outcome tids)

/-- Total-contacts component of a started route result. -/
def routeTotal : RouteResult → Option Nat
  | .started n _ _ => some n
  | _ => none

/-- Background-run component of a started route result. -/
def routeRun : RouteResult → Option RunOutput
  | .started _ _ r => some r
  | _ => none

/-- Does this outcome abort the loop? -/
def isEscape : AttemptOutcome → Bool
  | .failLogError _ => true
  | _ => false

/-- Is this outcome a successful send? -/
def isOk : AttemptOutcome → Bool
  | .ok => true
  | _ => false

/-- Number of successful attempts among indices `i, i+1, ..., i+n-1`. -/
def countOkFrom (outcome : Nat → AttemptOutcome) (i n : Nat) : Nat :=
  ((List.range' i n).filter (fun j => isOk (outcome j))).length

/-- The email_tracking inserts expected for a batch processed from index `i`:
one per attempted contact, in order. -/
def expectedTracking (tids : Nat → String) : List Contact → Nat → List (Nat × String)
  | [], _ => []
  | ct :: rest, i => (ct.id, tids i) :: expectedTracking tids rest (i + 1)

/-- The `sent` Outreach Log row for a contact. -/
def sentLogRow (cid : Nat) (subj : Contact → String) (ct : Contact) : LogRow :=
  { campaign_id := cid, contact_id := ct.id, email := ct.email, status := "sent",
    subject := subj ct, notes := none }

/-- The `failed` Outreach Log row for a contact and error detail. -/
def failLogRow (cid : Nat) (ct : Contact) (e : String) : LogRow :=
  { campaign_id := cid, contact_id := ct.id, email := ct.email, status := "failed",
    subject := "", notes := some e }

theorem countOkFrom_succ (outcome : Nat → AttemptOutcome) (i n : Nat) :
    countOkFrom outcome i (n + 1)
      = (if isOk (outcome i) = true then 1 else 0) + countOkFrom outcome (i + 1) n := by
  simp only [countOkFrom, List.range'_succ, List.filter_cons]
  split
  · simp [List.length_cons, Nat.add_comm]
  · simp

theorem countOkFrom_le (outcome : Nat → AttemptOutcome) (i n : Nat) :
    countOkFrom outcome i n ≤ n := by
  unfold countOkFrom
  calc ((List.range' i n).filter (fun j => isOk (outcome j))).length
      ≤ (List.range' i n).length := List.length_filter_le _ _
    _ = n := List.length_range' _ _ _

theorem runLoop_no_escape (cid : Nat) (subj : Contact → String)
    (outcome : Nat → AttemptOutcome) (tids : Nat → String)
    (hne : ∀ j, isEscape (outcome j) = false) :
    ∀ (batch : List Contact) (i sent failed : Nat),
    (runLoop cid subj outcome tids batch i sent failed).escaped = false
    ∧ (runLoop cid subj outcome tids batch i sent failed).attempts = batch.length
    ∧ (runLoop cid subj outcome tids batch i sent failed).sent
        = sent + countOkFrom outcome i batch.length
    ∧ (runLoop cid subj outcome tids batch i sent failed).failed
        = failed + (batch.length - countOkFrom outcome i batch.length)
    ∧ (runLoop cid subj outcome tids batch i sent failed).writes
        = List.range' (sent + 1) (countOkFrom outcome i batch.length)
    ∧ (runLoop cid subj outcome tids batch i sent failed).tracking
        = expectedTracking tids batch i := by
  intro batch
  induction batch with
  | nil =>
    intro i sent failed
    refine ⟨rfl, rfl, ?_, ?_, ?_, rfl⟩ <;>
      simp [runLoop, countOkFrom, List.range', expectedTracking]
  | cons ct rest ih =>
    intro i sent failed
    have hcnt := countOkFrom_succ outcome i rest.length
    have hle := countOkFrom_le outcome (i + 1) rest.length
    cases ho : outcome i with
    | ok =>
      have hok : isOk (outcome i) = true := by rw [ho]; rfl
      rw [hok, if_pos rfl] at hcnt
      obtain ⟨e1, e2, e3, e4, e5, e6⟩ := ih (i + 1) (sent + 1) failed
      simp only [runLoop, ho]
      refine ⟨e1, ?_, ?_, ?_, ?_, ?_⟩
      · rw [e2]; simp [List.length_cons]
      · rw [e3]; simp only [List.length_cons, hcnt]; omega
      · rw [e4]; simp only [List.length_cons, hcnt]; omega
      · rw [e5]
        simp only [List.length_cons, hcnt]
        rw [Nat.add_comm 1 (countOkFrom outcome (i + 1) rest.length)]
        rw [List.range'_succ]
      · rw [e6]; rfl
    | fail e =>
      have hok : isOk (outcome i) = false := by rw [ho]; rfl
      rw [hok] at hcnt
      simp at hcnt
      obtain ⟨e1, e2, e3, e4, e5, e6⟩ := ih (i + 1) sent (failed + 1)
      simp only [runLoop, ho]
      refine ⟨e1, ?_, ?_, ?_, ?_, ?_⟩
      · rw [e2]; simp [List.length_cons]
      · rw [e3]; simp only [List.length_cons, hcnt]
      · rw [e4]; simp only [List.length_cons, hcnt]; omega
      · rw [e5]; simp only [List.length_cons, hcnt]
      · rw [e6]; rfl
    | failLogError e =>
      have hx := hne i
      rw [ho] at hx
      exact absurd hx (by simp [isEscape])

theorem runLoop_marked_iff (cid : Nat) (subj : Contact → String)
    (outcome : Nat → AttemptOutcome) (tids : Nat → String)
    (hne : ∀ j, isEscape (outcome j) = false) :
    ∀ (batch : List Contact) (i sent failed : Nat) (x : Nat),
    (x ∈ (runLoop cid subj outcome tids batch i sent failed).marked
      ↔ ∃ (m : Nat) (hm : m < batch.length),
          isOk (outcome (i + m)) = true ∧ x = (batch.get ⟨m, hm⟩).id) := by
  intro batch
  induction batch with
  | nil =>
    intro i sent failed x
    simp [runLoop]
  | cons ct rest ih =>
    intro i sent failed x
    cases ho : outcome i with
    | ok =>
      simp only [runLoop, ho]
      constructor
      · intro hx
        rcases List.mem_cons.mp hx with h0 | h1
        · exact ⟨0, by simp, by rw [Nat.add_zero, ho]; rfl, by simpa using h0⟩
        · obtain ⟨m, hm, hokm, hxeq⟩ := (ih (i + 1) (sent + 1) failed x).mp h1
          refine ⟨m + 1, by simp only [List.length_cons]; omega, ?_, ?_⟩
          · have harith : i + (m + 1) = i + 1 + m := by omega
            rw [harith]
            exact hokm
          · simpa using hxeq
      · rintro ⟨m, hm, hokm, hxeq⟩
        cases m with
        | zero =>
          exact List.mem_cons.mpr (Or.inl (by simpa using hxeq))
        | succ m' =>
          refine List.mem_cons.mpr (Or.inr ((ih (i + 1) (sent + 1) failed x).mpr ?_))
          refine ⟨m', by simp only [List.length_cons] at hm; omega, ?_, by simpa using hxeq⟩
          have harith : i + 1 + m' = i + (m' + 1) := by omega
          rw [harith]
          exact hokm
    | fail e =>
      simp only [runLoop, ho]
      constructor
      · intro hx
        obtain ⟨m, hm, hokm, hxeq⟩ := (ih (i + 1) sent (failed + 1) x).mp hx
        refine ⟨m + 1, by simp only [List.length_cons]; omega, ?_, ?_⟩
        · have harith : i + (m + 1) = i + 1 + m := by omega
          rw [harith]
          exact hokm
        · simpa using hxeq
      · rintro ⟨m, hm, hokm, hxeq⟩
        cases m with
        | zero =>
          rw [Nat.add_zero, ho] at hokm
          exact absurd hokm (by simp [isOk])
        | succ m' =>
          refine (ih (i + 1) sent (failed + 1) x).mpr ?_
          refine ⟨m', by simp only [List.length_cons] at hm; omega, ?_, by simpa using hxeq⟩
          have harith : i + 1 + m' = i + (m' + 1) := by omega
          rw [harith]
          exact hokm
    | failLogError e =>
      have hx := hne i
      rw [ho] at hx
      exact absurd hx (by simp [isEscape])

theorem runLoop_failLog_mem (cid : Nat) (subj : Contact → String)
    (outcome : Nat → AttemptOutcome) (tids : Nat → String)
    (hne : ∀ j, isEscape (outcome j) = false) :
    ∀ (batch : List Contact) (i sent failed : Nat) (m : Nat) (hm : m < batch.length)
      (e : String), outcome (i + m) = .fail e →
    failLogRow cid (batch.get ⟨m, hm⟩) e
      ∈ (runLoop cid subj outcome tids batch i sent failed).logs := by
  intro batch
  induction batch with
  | nil =>
    intro i sent failed m hm
    simp at hm
  | cons ct rest ih =>
    intro i sent failed m hm e hf
    cases m with
    | zero =>
      rw [Nat.add_zero] at hf
      simp only [runLoop, hf]
      exact List.mem_cons.mpr (Or.inl rfl)
    | succ m' =>
      have hm' : m' < rest.length := by
        simp only [List.length_cons] at hm
        omega
      have hf' : outcome (i + 1 + m') = .fail e := by
        have harith : i + 1 + m' = i + (m' + 1) := by omega
        rw [harith]
        exact hf
      cases ho : outcome i with
      | ok =>
        simp only [runLoop, ho]
        refine List.mem_cons.mpr (Or.inr ?_)
        have := ih (i + 1) (sent + 1) failed m' hm' e hf'
        simpa using this
      | fail e2 =>
        simp only [runLoop, ho]
        refine List.mem_cons.mpr (Or.inr ?_)
        have := ih (i + 1) sent (failed + 1) m' hm' e hf'
        simpa using this
      | failLogError e2 =>
        have hx := hne i
        rw [ho] at hx
        exact absurd hx (by simp [isEscape])

/-- A minimal un-contacted contact used in concrete scenarios. -/
def mkContact (n : Nat) : Contact :=
  { id := n, email := "c@example.com", name := none, company := none, position := none,
    linkedin_url := none, custom_fields := [], contacted := false }

/-- A sender with verified Gmail credentials. -/
def wUser : UserRow :=
  { id := 1, name := some "Me", signature := none, gmail_configured := true,
    gmail_address := some "me@gmail.com", gmail_app_password := some "pw" }

/-- A campaign whose template has no subject/body content. -/
def wCampaign : CampaignData :=
  { id := 7, name := "camp", subject := none, html_body := none, text_body := none,
    settingsDelay := none }

/-- Deterministic stand-in for the per-attempt uuid draws. -/
def tids0 : Nat → String := fun i => "t" ++ toString i

/-- Every attempt succeeds. -/
def allOk : Nat → AttemptOutcome := fun _ => AttemptOutcome.ok

/-- Batch of 21 eligible contacts (more than the 20-cap, fewer than the
50-row fetch limit). -/
def eligible21 : List Contact := (List.range 21).map mkContact

/-- Batch of 3 eligible contacts. -/
def eligible3 : List Contact := (List.range 3).map mkContact

/-- The spec's example: transport failure on the 2nd contact only. -/
def out3 : Nat → AttemptOutcome :=
  fun i => if i = 1 then AttemptOutcome.fail "Email timeout" else AttemptOutcome.ok

/-- Template body for the C1 failing input: one hyperlink. -/
def c1body : String := "<p>Hi <a href=\"https://example.com/job\">my profile</a></p>"

/-- Claim C1 failing input: for a template body containing a hyperlink, the
HTML that `sendSingleEmailWithUserGmail` hands to the transport still
carries the original href and contains no `/track/click/` URL — the Link
Tracker Rewriter step the claim requires never runs — although the tracking
pixel and signature are appended, and although `processLinksForTracking`
applied to the same body does find and rewrite the link. -/
theorem C1_no_link_rewrite_in_dispatch :
    occursIn "/track/click/".toList
      (sendSingleHtml (some c1body) wContact (some "Me") (some "Best,\nMe")
        "https://base".toList "T1".toList) = false
    ∧ occursIn "href=\"https://example.com/job\"".toList
      (sendSingleHtml (some c1body) wContact (some "Me") (some "Best,\nMe")
        "https://base".toList "T1".toList) = true
    ∧ occursIn "/track/open/T1".toList
      (sendSingleHtml (some c1body) wContact (some "Me") (some "Best,\nMe")
        "https://base".toList "T1".toList) = true
    ∧ (processLinksForTracking c1body.toList "T1".toList "https://base".toList).2 ≠ [] :=
  ⟨by decide, by decide, by decide, by decide⟩

/-- Claim C2 counterexample: with 21 eligible contacts the route records
total_contacts = 21, but the runner attempts only `min(21, 20) = 20` sends,
so the number of send attempts differs from the recorded target count. -/
theorem C2_counterexample :
    routeTotal (postCampaignSend wUser true (some wCampaign) eligible21 allOk tids0) = some 21
    ∧ (routeRun (postCampaignSend wUser true (some wCampaign) eligible21 allOk tids0)).map
        (fun r => r.loop.attempts) = some 20 :=
  ⟨by decide, by decide⟩

theorem take_min_self {α : Type} (l : List α) (k : Nat) :
    l.take (min l.length k) = l.take k := by
  rcases Nat.le_total l.length k with h | h
  · rw [Nat.min_eq_left h, List.take_length, List.take_of_length_le h]
  · rw [Nat.min_eq_right h]

/-- Claim C2 (amended): a started campaign run records
total_contacts = fetched batch size (up to 50), and the runner attempts
exactly `min(total, 20)` sends, producing one tracking insert per contact of
the first `min(total, 20)` contacts of the batch, in batch order. -/
theorem C2_amended_batch_cap (user : UserRow) (verifyOk : Bool) (cd : CampaignData)
    (eligible : List Contact) (outcome : Nat → AttemptOutcome) (tids : Nat → String)
    (n : Nat) (st : String) (run : RunOutput)
    (hne : ∀ j, isEscape (outcome j) = false)
    (h : postCampaignSend user verifyOk (some cd) eligible outcome tids
          = RouteResult.started n st run) :
    n = (eligible.take 50).length
    ∧ run.loop.attempts = min n 20
    ∧ run.loop.tracking = expectedTracking tids ((eligible.take 50).take 20) 0 := by
  unfold postCampaignSend at h
  split at h
  · exact absurd h (by simp)
  · split at h
    · exact absurd h (by simp)
    · have h2 : (if (eligible.take 50).length = 0 then RouteResult.errNoContacts
          else RouteResult.started (eligible.take 50).length
            (backgroundFinalStatus (sendEmailsWithUserGmail cd (eligible.take 50) user outcome tids))
            (sendEmailsWithUserGmail cd (eligible.take 50) user outcome tids))
          = RouteResult.started n st run := h
      split at h2
      · exact absurd h2 (by simp)
      · obtain ⟨hn, hst, hrun⟩ : (eligible.take 50).length = n
            ∧ backgroundFinalStatus (sendEmailsWithUserGmail cd (eligible.take 50) user outcome tids) = st
            ∧ sendEmailsWithUserGmail cd (eligible.take 50) user outcome tids = run := by
          simpa using h2
        subst hn
        rw [← hrun]
        have hr := runLoop_no_escape cd.id
          (fun ct => personalizeContent cd.subject ct user.name) outcome tids hne
          ((eligible.take 50).take (min (eligible.take 50).length 20)) 0 0 0
        refine ⟨rfl, ?_, ?_⟩
        · show (runLoop cd.id (fun ct => personalizeContent cd.subject ct user.name)
              outcome tids ((eligible.take 50).take (min (eligible.take 50).length 20)) 0 0 0).attempts = _
          rw [hr.2.1]
          simp only [List.length_take]
          omega
        · show (runLoop cd.id (fun ct => personalizeContent cd.subject ct user.name)
              outcome tids ((eligible.take 50).take (min (eligible.take 50).length 20)) 0 0 0).tracking = _
          rw [hr.2.2.2.2.2, take_min_self]

/-- Witness for the amended C2 at a concrete 3-contact batch. -/
theorem C2_amended_batch_cap_witness :
    3 = (eligible3.take 50).length
    ∧ (sendEmailsWithUserGmail wCampaign (eligible3.take 50) wUser allOk tids0).loop.attempts
        = min 3 20
    ∧ (sendEmailsWithUserGmail wCampaign (eligible3.take 50) wUser allOk tids0).loop.tracking
        = expectedTracking tids0 ((eligible3.take 50).take 20) 0 :=
  C2_amended_batch_cap wUser true wCampaign eligible3 allOk tids0 3
    (backgroundFinalStatus (sendEmailsWithUserGmail wCampaign (eligible3.take 50) wUser allOk tids0))
    (sendEmailsWithUserGmail wCampaign (eligible3.take 50) wUser allOk tids0)
    (fun _ => rfl) (by decide)

/-- Claim C3 counterexample: a batch of one contact whose send fails.  The
claim says sentCount is incremented and persisted after each attempt
regardless of success, which would leave a persisted count of 1 after this
attempt; the code performs no intermediate sent_count write at all and
finally persists ("failed", 0). -/
theorem C3_counterexample :
    (sendEmailsWithUserGmail wCampaign [mkContact 0] wUser
        (fun _ => AttemptOutcome.fail "SMTP connection error") tids0).loop.attempts = 1
    ∧ (sendEmailsWithUserGmail wCampaign [mkContact 0] wUser
        (fun _ => AttemptOutcome.fail "SMTP connection error") tids0).loop.writes = []
    ∧ (sendEmailsWithUserGmail wCampaign [mkContact 0] wUser
        (fun _ => AttemptOutcome.fail "SMTP connection error") tids0).finalWrite
        = some ("failed", 0) :=
  ⟨by decide, by decide, by decide⟩

/-- Claim C3 (amended): the running sentCount is incremented and persisted
after each successful attempt only — the intermediate writes are exactly
1, 2, ..., finalSent — and the final write persists `completed` when at
least one send succeeded, else `failed`, together with the number of
successes among the first `min(n, 20)` attempts. -/
theorem C3_amended_sent_count (campaign : CampaignData) (contacts : List Contact)
    (user : UserRow) (outcome : Nat → AttemptOutcome) (tids : Nat → String)
    (hne : ∀ j, isEscape (outcome j) = false) :
    (sendEmailsWithUserGmail campaign contacts user outcome tids).loop.sent
        = countOkFrom outcome 0 (min contacts.length 20)
    ∧ (sendEmailsWithUserGmail campaign contacts user outcome tids).loop.writes
        = List.range' 1 ((sendEmailsWithUserGmail campaign contacts user outcome tids).loop.sent)
    ∧ (sendEmailsWithUserGmail campaign contacts user outcome tids).finalWrite
        = some (if (sendEmailsWithUserGmail campaign contacts user outcome tids).loop.sent > 0
                then "completed" else "failed",
                (sendEmailsWithUserGmail campaign contacts user outcome tids).loop.sent) := by
  have hr := runLoop_no_escape campaign.id
    (fun ct => personalizeContent campaign.subject ct user.name) outcome tids hne
    (contacts.take (min contacts.length 20)) 0 0 0
  have hlen : (contacts.take (min contacts.length 20)).length = min contacts.length 20 := by
    simp only [List.length_take]
    omega
  refine ⟨?_, ?_, ?_⟩
  · show (runLoop campaign.id (fun ct => personalizeContent campaign.subject ct user.name)
        outcome tids (contacts.take (min contacts.length 20)) 0 0 0).sent = _
    rw [hr.2.2.1, hlen]
    simp
  · show (runLoop campaign.id (fun ct => personalizeContent campaign.subject ct user.name)
        outcome tids (contacts.take (min contacts.length 20)) 0 0 0).writes
      = List.range' 1 ((runLoop campaign.id
          (fun ct => personalizeContent campaign.subject ct user.name)
          outcome tids (contacts.take (min contacts.length 20)) 0 0 0).sent)
    rw [hr.2.2.2.2.1, hr.2.2.1]
    simp
  · show (if (runLoop campaign.id (fun ct => personalizeContent campaign.subject ct user.name)
            outcome tids (contacts.take (min contacts.length 20)) 0 0 0).escaped then none
          else some (if (runLoop campaign.id
              (fun ct => personalizeContent campaign.subject ct user.name)
              outcome tids (contacts.take (min contacts.length 20)) 0 0 0).sent > 0
            then "completed" else "failed",
            (runLoop campaign.id (fun ct => personalizeContent campaign.subject ct user.name)
              outcome tids (contacts.take (min contacts.length 20)) 0 0 0).sent))
      = _
    rw [hr.1]
    rfl

/-- Witness for the amended C3 at the spec's example scenario: batch of 3
with a transport failure on the 2nd contact; the final write is
("completed", 2) and the intermediate writes are 1, 2. -/
theorem C3_amended_sent_count_witness :
    ((sendEmailsWithUserGmail wCampaign eligible3 wUser out3 tids0).loop.sent
        = countOkFrom out3 0 (min eligible3.length 20)
    ∧ (sendEmailsWithUserGmail wCampaign eligible3 wUser out3 tids0).loop.writes
        = List.range' 1 ((sendEmailsWithUserGmail wCampaign eligible3 wUser out3 tids0).loop.sent)
    ∧ (sendEmailsWithUserGmail wCampaign eligible3 wUser out3 tids0).finalWrite
        = some (if (sendEmailsWithUserGmail wCampaign eligible3 wUser out3 tids0).loop.sent > 0
                then "completed" else "failed",
                (sendEmailsWithUserGmail wCampaign eligible3 wUser out3 tids0).loop.sent))
    ∧ (sendEmailsWithUserGmail wCampaign eligible3 wUser out3 tids0).finalWrite
        = some ("completed", 2)
    ∧ (sendEmailsWithUserGmail wCampaign eligible3 wUser out3 tids0).loop.writes = [1, 2] :=
  ⟨C3_amended_sent_count wCampaign eligible3 wUser out3 tids0
      (fun j => by by_cases hj : j = 1 <;> simp [out3, hj, isEscape]),
   by decide, by decide⟩

/-- Claim C6: every started campaign run ends in a terminal status.  The
recorded final status is never `sending`; it is `completed` exactly when no
exception escaped the loop and at least one send succeeded, and `failed`
otherwise (no successes, or an escaping exception handled by the detached
task's catch handler). -/
theorem C6_terminal_status (user : UserRow) (verifyOk : Bool)
    (campaignData : Option CampaignData) (eligible : List Contact)
    (outcome : Nat → AttemptOutcome) (tids : Nat → String)
    (n : Nat) (st : String) (run : RunOutput)
    (h : postCampaignSend user verifyOk campaignData eligible outcome tids
          = RouteResult.started n st run) :
    (st = "completed" ∨ st = "failed")
    ∧ st ≠ "sending"
    ∧ (st = "completed" ↔ run.loop.escaped = false ∧ run.loop.sent > 0) := by
  cases campaignData with
  | none =>
    exfalso
    unfold postCampaignSend at h
    split at h
    · simp at h
    · split at h
      · simp at h
      · have h2 : RouteResult.errCampaignNotFound = RouteResult.started n st run := h
        simp at h2
  | some cd =>
    unfold postCampaignSend at h
    split at h
    · simp at h
    · split at h
      · simp at h
      · have h2 : (if (eligible.take 50).length = 0 then RouteResult.errNoContacts
            else RouteResult.started (eligible.take 50).length
              (backgroundFinalStatus (sendEmailsWithUserGmail cd (eligible.take 50) user outcome tids))
              (sendEmailsWithUserGmail cd (eligible.take 50) user outcome tids))
            = RouteResult.started n st run := h
        split at h2
        · simp at h2
        · obtain ⟨hn, hst, hrun⟩ : (eligible.take 50).length = n
              ∧ backgroundFinalStatus (sendEmailsWithUserGmail cd (eligible.take 50) user outcome tids) = st
              ∧ sendEmailsWithUserGmail cd (eligible.take 50) user outcome tids = run := by
            simpa using h2
          rw [← hst, ← hrun]
          have hfw : (sendEmailsWithUserGmail cd (eligible.take 50) user outcome tids).finalWrite
              = (if (sendEmailsWithUserGmail cd (eligible.take 50) user outcome tids).loop.escaped
                 then none
                 else some (if (sendEmailsWithUserGmail cd (eligible.take 50) user outcome tids).loop.sent > 0
                            then "completed" else "failed",
                            (sendEmailsWithUserGmail cd (eligible.take 50) user outcome tids).loop.sent)) := rfl
          cases hesc : (sendEmailsWithUserGmail cd (eligible.take 50) user outcome tids).loop.escaped with
          | true =>
            have hbfs : backgroundFinalStatus (sendEmailsWithUserGmail cd (eligible.take 50) user outcome tids)
                = "failed" := by
              unfold backgroundFinalStatus
              rw [hfw, hesc]
              rfl
            rw [hbfs]
            refine ⟨Or.inr rfl, by decide, ?_⟩
            constructor
            · intro hx
              exact absurd hx (by decide)
            · rintro ⟨hx, _⟩
              exact absurd hx (by decide)
          | false =>
            by_cases hsent : (sendEmailsWithUserGmail cd (eligible.take 50) user outcome tids).loop.sent > 0
            · have hbfs : backgroundFinalStatus (sendEmailsWithUserGmail cd (eligible.take 50) user outcome tids)
                  = "completed" := by
                unfold backgroundFinalStatus
                rw [hfw, hesc]
                simp [hsent]
              rw [hbfs]
              exact ⟨Or.inl rfl, by decide, by simp [hesc, hsent]⟩
            · have hbfs : backgroundFinalStatus (sendEmailsWithUserGmail cd (eligible.take 50) user outcome tids)
                  = "failed" := by
                unfold backgroundFinalStatus
                rw [hfw, hesc]
                simp [hsent]
              rw [hbfs]
              refine ⟨Or.inr rfl, by decide, ?_⟩
              constructor
              · intro hx
                exact absurd hx (by decide)
              · rintro ⟨_, hx⟩
                exact absurd hx hsent

/-- Witness for C6 at a concrete all-success run. -/
theorem C6_terminal_status_witness :
    ("completed" = "completed" ∨ "completed" = "failed")
    ∧ "completed" ≠ "sending"
    ∧ ("completed" = "completed"
        ↔ (sendEmailsWithUserGmail wCampaign (eligible3.take 50) wUser allOk tids0).loop.escaped = false
          ∧ (sendEmailsWithUserGmail wCampaign (eligible3.take 50) wUser allOk tids0).loop.sent > 0) :=
  C6_terminal_status wUser true (some wCampaign) eligible3 allOk tids0 3 "completed"
    (sendEmailsWithUserGmail wCampaign (eligible3.take 50) wUser allOk tids0) (by decide)

/-- Claim C8: if the transport call for a contact fails (including the
timeout), that contact's `contacted` flag is never set by the run, a
`failed` Outreach Log entry carrying the failure detail is appended, and the
failure does not abort the rest of the batch: the attempt count still equals
`min(n, 20)`. -/
theorem C8_transport_failure (campaign : CampaignData) (contacts : List Contact)
    (user : UserRow) (outcome : Nat → AttemptOutcome) (tids : Nat → String)
    (hne : ∀ j, isEscape (outcome j) = false)
    (hnodup : (contacts.map (fun ct => ct.id)).Nodup)
    (j : Nat) (hj : j < min contacts.length 20) (e : String)
    (hfail : outcome j = AttemptOutcome.fail e) :
    (contacts.get ⟨j, lt_of_lt_of_le hj (Nat.min_le_left _ _)⟩).id
        ∉ (sendEmailsWithUserGmail campaign contacts user outcome tids).loop.marked
    ∧ failLogRow campaign.id (contacts.get ⟨j, lt_of_lt_of_le hj (Nat.min_le_left _ _)⟩) e
        ∈ (sendEmailsWithUserGmail campaign contacts user outcome tids).loop.logs
    ∧ (sendEmailsWithUserGmail campaign contacts user outcome tids).loop.attempts
        = min contacts.length 20 := by
  have hjc : j < contacts.length := lt_of_lt_of_le hj (Nat.min_le_left _ _)
  have hlen : (contacts.take (min contacts.length 20)).length = min contacts.length 20 := by
    simp only [List.length_take]
    omega
  have hjb : j < (contacts.take (min contacts.length 20)).length := by omega
  have hget : ∀ (m : Nat) (hm : m < (contacts.take (min contacts.length 20)).length),
      (contacts.take (min contacts.length 20)).get ⟨m, hm⟩
        = contacts.get ⟨m, by rw [hlen] at hm; exact lt_of_lt_of_le hm (Nat.min_le_left _ _)⟩ := by
    intro m hm
    simp [List.get_eq_getElem, List.getElem_take]
  refine ⟨?_, ?_, ?_⟩
  · intro hmem
    have hiff := (runLoop_marked_iff campaign.id
      (fun ct => personalizeContent campaign.subject ct user.name) outcome tids hne
      (contacts.take (min contacts.length 20)) 0 0 0
      ((contacts.get ⟨j, lt_of_lt_of_le hj (Nat.min_le_left _ _)⟩).id)).mp hmem
    obtain ⟨m, hm, hokm, hxeq⟩ := hiff
    rw [hget m hm] at hxeq
    have hmc : m < contacts.length := by
      rw [hlen] at hm
      exact lt_of_lt_of_le hm (Nat.min_le_left _ _)
    have hinj : Function.Injective (contacts.map (fun ct => ct.id)).get :=
      List.nodup_iff_injective_get.mp hnodup
    have hfeq : (contacts.map (fun ct => ct.id)).get ⟨m, by simpa using hmc⟩
        = (contacts.map (fun ct => ct.id)).get ⟨j, by simpa using hjc⟩ := by
      simp only [List.get_eq_getElem, List.getElem_map]
      simp only [List.get_eq_getElem] at hxeq
      exact hxeq.symm
    have hfin : (⟨m, by simpa using hmc⟩ : Fin (contacts.map (fun ct => ct.id)).length)
        = ⟨j, by simpa using hjc⟩ := hinj hfeq
    have hmj : m = j := congrArg Fin.val hfin
    rw [hmj, Nat.zero_add, hfail] at hokm
    exact absurd hokm (by simp [isOk])
  · have hmem := runLoop_failLog_mem campaign.id
      (fun ct => personalizeContent campaign.subject ct user.name) outcome tids hne
      (contacts.take (min contacts.length 20)) 0 0 0 j hjb e
      (by rw [Nat.zero_add]; exact hfail)
    rw [hget j hjb] at hmem
    exact hmem
  · have hr := runLoop_no_escape campaign.id
      (fun ct => personalizeContent campaign.subject ct user.name) outcome tids hne
      (contacts.take (min contacts.length 20)) 0 0 0
    show (runLoop campaign.id (fun ct => personalizeContent campaign.subject ct user.name)
        outcome tids (contacts.take (min contacts.length 20)) 0 0 0).attempts = _
    rw [hr.2.1, hlen]

/-- Witness for C8 at the 3-contact batch with a failure on the 2nd. -/
theorem C8_transport_failure_witness :
    (eligible3.get ⟨1, by decide⟩).id
        ∉ (sendEmailsWithUserGmail wCampaign eligible3 wUser out3 tids0).loop.marked
    ∧ failLogRow wCampaign.id (eligible3.get ⟨1, by decide⟩) "Email timeout"
        ∈ (sendEmailsWithUserGmail wCampaign eligible3 wUser out3 tids0).loop.logs
    ∧ (sendEmailsWithUserGmail wCampaign eligible3 wUser out3 tids0).loop.attempts
        = min eligible3.length 20 :=
  C8_transport_failure wCampaign eligible3 wUser out3 tids0
    (fun j => by by_cases hj : j = 1 <;> simp [out3, hj, isEscape])
    (by decide) 1 (by decide) "Email timeout" (by decide)

theorem C10_falsy_custom_field_left_verbatim_witness :
    (personalizeContent (some (String.mk (mkTokL "budget".toList))) wContactEmptyStr none
      = String.mk (mkTokL "budget".toList))
    ∧ (personalizeContent (some (String.mk (mkTokL "budget".toList))) wContactNull none
      = String.mk (mkTokL "budget".toList))
    ∧ (personalizeContent (some (String.mk (mkTokL "budget".toList))) wContactZero none
      = String.mk (mkTokL "budget".toList)) :=
  ⟨C10_falsy_custom_field_left_verbatim "budget".toList wContactEmptyStr none (JVal.str "")
      (by decide) (by decide) (by decide) (by decide) (by decide),
   C10_falsy_custom_field_left_verbatim "budget".toList wContactNull none JVal.jnull
      (by decide) (by decide) (by decide) (by decide) (by decide),
   C10_falsy_custom_field_left_verbatim "budget".toList wContactZero none (JVal.num 0)
      (by decide) (by decide) (by decide) (by decide) (by decide)⟩

end EC
